import Mathlib

/-!
Shallow embedding of the ordering subsystem of `bby-service-menu-manager`.

The persistent store (PostgreSQL, `database-setup.sql`) keeps three ordered
collections — `service_sections` (scoped by `user_id`), `services` and
`service_packages` (both scoped by `section_id`) — each with a
`display_order` column and a `UNIQUE(parent, display_order)` constraint.
All three tables are modelled by one row type: `parentId` stands for
`user_id` resp. `section_id`, `position` for `display_order`, `isActive`
for `is_active`.

The reorder operations (`DatabaseService.updateSectionOrder`,
`updateServiceOrder`, `updatePackageOrder` in `backend/database/services.ts`)
all run the same two-phase loop over the submitted list:
first every listed row is moved to `display_order = 1000 + i`
(`i` the array index), then every listed row is moved to
`display_order = i + 1`.  Each write is one SQL `UPDATE` scoped by
`id` and the parent column.  The submitted elements carry an `order`
field that the loops never read.
-/

namespace MenuOrder

/-- A row of one of the three ordered tables (`service_sections`,
`services`, `service_packages`): primary key `id`, scope column
`parentId` (`user_id` / `section_id`), payload `name`,
`position` (`display_order`), `isActive` (`is_active`). -/
structure Row where
  id : String
  parentId : String
  name : String
  position : Int
  isActive : Bool
deriving DecidableEq

/-- One element of a reorder request body (`{id, order}`), as sent to the
`PUT .../order` endpoints.  The `order` field is carried by the wire format
but never read by the renumbering loops. -/
structure Entry where
  id : String
  order : Int
deriving DecidableEq

/-- The SQL statement shared by every write of the renumbering loops:
`UPDATE t SET display_order = $1 WHERE id = $2 AND parent = $3`.
It rewrites the position of every row matching `(eid, pid)` and leaves
all other rows untouched (the statement has no `is_active` filter). -/
def sqlUpdateOrder (db : List Row) (newPos : Int) (eid pid : String) : List Row :=
  db.map fun r => if r.id = eid ∧ r.parentId = pid then { r with position := newPos } else r

/-- One pass of a renumbering loop, from array index `i` on: for each
remaining element `e`, in list order, if `e.id` is truthy (a non-empty
string — the source guard `if (x && x.id)`), issue
`sqlUpdateOrder` with target position `posOf i`; a write that matches no
row only logs a warning and the loop continues. -/
def passFrom (pid : String) (posOf : Nat → Int) (i : Nat) (entries : List Entry)
    (db : List Row) : List Row :=
  match entries with
  | [] => db
  | e :: rest =>
      passFrom pid posOf (i + 1) rest
        (if e.id ≠ "" then sqlUpdateOrder db (posOf i) e.id pid else db)

/-- `DatabaseService.updateSectionOrder(userId, sections)`: first loop writes
`display_order = 1000 + i` for each listed section, second loop writes
`display_order = i + 1`; every write is scoped `WHERE id = $2 AND user_id = $3`. -/
def updateSectionOrder (userId : String) (sections : List Entry) (db : List Row) : List Row :=
  passFrom userId (fun i => (i : Int) + 1) 0 sections
    (passFrom userId (fun i => 1000 + (i : Int)) 0 sections db)

/-- `DatabaseService.updateServiceOrder(sectionId, services)`: identical
two-phase loop over the `services` table, writes scoped
`WHERE id = $2 AND section_id = $3`. -/
def updateServiceOrder (sectionId : String) (services : List Entry) (db : List Row) : List Row :=
  passFrom sectionId (fun i => (i : Int) + 1) 0 services
    (passFrom sectionId (fun i => 1000 + (i : Int)) 0 services db)

/-- `DatabaseService.updatePackageOrder(sectionId, packages)`: identical
two-phase loop over the `service_packages` table, writes scoped
`WHERE id = $2 AND section_id = $3`. -/
def updatePackageOrder (sectionId : String) (packages : List Entry) (db : List Row) : List Row :=
  passFrom sectionId (fun i => (i : Int) + 1) 0 packages
    (passFrom sectionId (fun i => 1000 + (i : Int)) 0 packages db)

/-- Comparison used by `ORDER BY display_order` (ascending). -/
def posLE (a b : Row) : Prop := a.position ≤ b.position

instance : DecidableRel posLE := fun a b => inferInstanceAs (Decidable (a.position ≤ b.position))

instance : IsTotal Row posLE := ⟨fun a b => Int.le_total a.position b.position⟩

instance : IsTrans Row posLE := ⟨fun _ _ _ hab hbc => le_trans hab hbc⟩

/-- The `WHERE parent = $1 AND is_active = true` filter of the read queries. -/
def activeChildren (pid : String) (db : List Row) : List Row :=
  db.filter fun r => r.parentId == pid && r.isActive

/-- The read query pattern shared by `getMenuData`:
`SELECT ... WHERE parent = $1 AND is_active = true ORDER BY display_order`. -/
def listActive (pid : String) (db : List Row) : List Row :=
  List.insertionSort posLE (activeChildren pid db)

/-- Identifiers of the active children of one parent scope. -/
def activeIds (pid : String) (db : List Row) : List String :=
  (activeChildren pid db).map Row.id

/-- The position sequence `1..n` that a reorder of `n` children is meant to
produce. -/
def targetPositions (n : Nat) : List Int :=
  List.map (fun i : Nat => (i : Int) + 1) (List.range n)

/-! ### Pointwise description of the loops

`passFn` is the effect of one renumbering pass on a single row,
`finalRow` the effect of the whole two-phase operation; both are proved
equal to the loops below, and every property of the operation is derived
from them. -/

/-- Index of the last element of `entries` whose `id` equals `rid` and is
truthy (the last write of a pass wins when an id is listed twice). -/
def lastIdxOf (rid : String) : List Entry → Option Nat
  | [] => none
  | e :: rest =>
      match lastIdxOf rid rest with
      | some j => some (j + 1)
      | none => if e.id = rid ∧ e.id ≠ "" then some 0 else none

/-- The effect of `passFrom pid posOf i entries` on one row. -/
def passFn (pid : String) (posOf : Nat → Int) (i : Nat) (entries : List Entry) (r : Row) : Row :=
  match entries with
  | [] => r
  | e :: rest =>
      passFn pid posOf (i + 1) rest
        (if e.id ≠ "" ∧ r.id = e.id ∧ r.parentId = pid then { r with position := posOf i } else r)

/-- Closed form of `passFn`: a row in scope listed last at index `j`
ends at position `posOf (i + j)`; every other row is unchanged. -/
def passResult (pid : String) (posOf : Nat → Int) (i : Nat) (entries : List Entry) (r : Row) : Row :=
  if r.parentId = pid then
    match lastIdxOf r.id entries with
    | some j => { r with position := posOf (i + j) }
    | none => r
  else r

/-- Closed form of the whole two-phase operation on one row: the settle
pass overwrites the displace pass, so a listed row in scope ends at
position `j + 1` where `j` is its (last) index in the submitted list. -/
def finalRow (pid : String) (entries : List Entry) (r : Row) : Row :=
  if r.parentId = pid then
    match lastIdxOf r.id entries with
    | some j => { r with position := (j : Int) + 1 }
    | none => r
  else r

/-! ### The spec's wording of the Renumbering Engine (for the refinement
claim): Phase A (displace) writes `OFFSET + index` for each listed entity in
list order, Phase B (settle) writes `index + 1`; each write is scoped to the
`(entityId, parentId)` pair. -/

/-- The displacement offset: "a constant guaranteed larger than any
plausible legitimate position (e.g., 1000)". -/
def OFFSET : Int := 1000

/-- Phase A per the spec: for each entity in the input list, in list order,
write its position to `OFFSET + index`. -/
def specPhaseA (pid : String) (entries : List Entry) (db : List Row) : List Row :=
  entries.enum.foldl
    (fun acc ie =>
      if ie.2.id ≠ "" then sqlUpdateOrder acc (OFFSET + (ie.1 : Int)) ie.2.id pid else acc)
    db

/-- Phase B per the spec: for each entity in the input list, in list order,
write its final position to `index + 1`. -/
def specPhaseB (pid : String) (entries : List Entry) (db : List Row) : List Row :=
  entries.enum.foldl
    (fun acc ie =>
      if ie.2.id ≠ "" then sqlUpdateOrder acc ((ie.1 : Int) + 1) ie.2.id pid else acc)
    db

/-! ### Uniqueness predicates and write-by-write safety -/

/-- No two active rows of scope `pid` share a position: the core invariant
of §3 of the spec (the `(parent, position)` uniqueness "restricted
conceptually to active rows"). -/
def UniqActive (pid : String) (db : List Row) : Prop :=
  db.Pairwise fun r s =>
    r.isActive = true → s.isActive = true →
      r.parentId = pid → s.parentId = pid → r.position ≠ s.position

instance (pid : String) (db : List Row) : Decidable (UniqActive pid db) :=
  inferInstanceAs (Decidable (List.Pairwise _ db))

/-- No two rows of scope `pid` — active or not — share a position: the
physical schema constraint `UNIQUE(parent, display_order)` of
`database-setup.sql`, which is not a partial index and therefore also
covers soft-deleted rows. -/
def UniqAllRows (pid : String) (db : List Row) : Prop :=
  db.Pairwise fun r s => r.parentId = pid → s.parentId = pid → r.position ≠ s.position

instance (pid : String) (db : List Row) : Decidable (UniqAllRows pid db) :=
  inferInstanceAs (Decidable (List.Pairwise _ db))

/-- Every write of a pass lands on a position not currently held by any
other active row of the scope: the per-write safety discipline of the
two-phase renumber.  The first conjunct speaks about the state `db` at the
moment of the write with target `posOf i`. -/
def SafePass (pid : String) (posOf : Nat → Int) : Nat → List Entry → List Row → Prop
  | _, [], _ => True
  | i, e :: rest, db =>
      (e.id ≠ "" → ∀ r ∈ db, r.isActive = true → r.parentId = pid → r.id ≠ e.id →
        r.position ≠ posOf i)
      ∧ SafePass pid posOf (i + 1) rest
          (if e.id ≠ "" then sqlUpdateOrder db (posOf i) e.id pid else db)

/-- All intermediate states of one pass, the state before the first write
first and the final state last. -/
def passStates (pid : String) (posOf : Nat → Int) : Nat → List Entry → List Row → List (List Row)
  | _, [], db => [db]
  | i, e :: rest, db =>
      db :: passStates pid posOf (i + 1) rest
        (if e.id ≠ "" then sqlUpdateOrder db (posOf i) e.id pid else db)

/-- All intermediate states of the two-phase operation, initial state
included. -/
def operationStates (pid : String) (entries : List Entry) (db : List Row) : List (List Row) :=
  passStates pid (fun i => 1000 + (i : Int)) 0 entries db ++
    passStates pid (fun i => (i : Int) + 1) 0 entries
      (passFrom pid (fun i => 1000 + (i : Int)) 0 entries db)

/-! ### Menu read model (`DatabaseService.getMenuData`) -/

/-- A package as assembled by `getMenuData`: the row's own fields plus the
identifiers of its member services, read with
`SELECT service_id FROM package_services WHERE package_id = $1`
(no section filter). -/
structure MenuPackage where
  id : String
  name : String
  position : Int
  services : List String
deriving DecidableEq

/-- A section as assembled by `getMenuData`: its active services and active
packages, each `ORDER BY display_order`. -/
structure MenuSection where
  id : String
  name : String
  position : Int
  services : List Row
  packages : List MenuPackage
deriving DecidableEq

/-- The relational state visible to `getMenuData`: the three ordered tables
plus the `package_services` association (pairs `(package_id, service_id)`). -/
structure Db where
  sections : List Row
  services : List Row
  packages : List Row
  packageServices : List (String × String)
deriving DecidableEq

/-- `DatabaseService.getMenuData(userId)`: active sections of the owner in
`display_order`, each carrying its active services and packages in
`display_order`, each package carrying every `service_id` linked to it in
`package_services` — the membership query filters only by `package_id`,
never by section. -/
def getMenuData (userId : String) (db : Db) : List MenuSection :=
  (listActive userId db.sections).map fun sec =>
    { id := sec.id
      name := sec.name
      position := sec.position
      services := listActive sec.id db.services
      packages := (listActive sec.id db.packages).map fun p =>
        { id := p.id
          name := p.name
          position := p.position
          services := (db.packageServices.filter fun ps => ps.1 == p.id).map Prod.snd } }

/-! ### Request handlers (`backend/server.ts`) -/

/-- The shape of one field of a JSON request body, as far as the handlers
inspect it: absent (or `null`), a string, a number, an array of
`{id, order}` elements, or some other object. -/
inductive ReqVal where
  | missing
  | str (s : String)
  | num (n : Int)
  | arr (entries : List Entry)
  | obj
deriving DecidableEq

/-- Outcome of a handler: either a synchronous exception escaped before any
response was produced (`thrown` — for these `async` handlers the request is
never answered), or an HTTP response with a status and a `success` flag. -/
inductive HandlerResult where
  | thrown
  | response (status : Nat) (success : Bool)
deriving DecidableEq

/-- `PUT /api/menu/:userId/sections/order` (server.ts 75-100): destructures
`sections`, rejects with 400 when `!Array.isArray(sections)`, otherwise
calls `updateSectionOrder` and answers `{success:true, message}`. -/
def sectionsOrderHandler (userId : String) (sections : ReqVal) (db : List Row) :
    HandlerResult × List Row :=
  match sections with
  | .arr entries => (.response 200 true, updateSectionOrder userId entries db)
  | _ => (.response 400 false, db)

/-- `PUT /api/menu/:userId/sections/:sectionId/services/order`
(server.ts 103-134): no array check; the handler evaluates
`services.length` in a log statement before its try/catch, so a missing
(or `null`) `services` field throws a `TypeError` with no response sent.
Every other body shape is answered 200 with the stored rows UNCHANGED:
server.ts 118 passes three arguments `(userId, sectionId, services)` to the
two-parameter `updateServiceOrder(sectionId, services)`; JavaScript binds
positionally and drops the trailing argument, so the method receives the
`sectionId` string as its list.  Iterating that string yields characters,
none of which has a truthy `.id`, so the loop guard never fires, no UPDATE
is issued, and the method resolves normally.  (A non-array, non-null body
value likewise reaches the loops without effect.) -/
def servicesOrderHandler (userId sectionId : String) (services : ReqVal) (db : List Row) :
    HandlerResult × List Row :=
  match userId, sectionId, services with
  | _, _, .missing => (.thrown, db)
  | _, _, .arr _ => (.response 200 true, db)
  | _, _, _ => (.response 200 true, db)

/-- `PUT /api/menu/:userId/sections/:sectionId/packages/order`
(server.ts 137-168): rejects with 400 when `!Array.isArray(packages)`.
On an array body it answers `{success:true, message}` but, as with the
services handler, server.ts 153 passes three arguments to the
two-parameter `updatePackageOrder(sectionId, packages)`, binding the list
parameter to the `sectionId` string: no UPDATE is issued and the stored
rows are unchanged. -/
def packagesOrderHandler (userId sectionId : String) (packages : ReqVal) (db : List Row) :
    HandlerResult × List Row :=
  match userId, sectionId, packages with
  | _, _, .arr _ => (.response 200 true, db)
  | _, _, _ => (.response 400 false, db)

/-! ### The constraint-checked sections path

The sections handler (server.ts 75-100) calls
`updateSectionOrder(userId, sections)` with matching arity, so its writes
really execute.  The schema's `UNIQUE(user_id, display_order)`
(database-setup.sql) is not a partial index: an UPDATE whose target
position is already held by ANY other row of the scope — soft-deleted rows
included — throws, the catch rethrows, and the handler answers 500.  The
definitions below model that error path; a write that matches no row does
not throw (`rowCount = 0`). -/

/-- Whether the UPDATE of `sqlUpdateOrder` violates
`UNIQUE(parent, display_order)`: some row is actually moved to `newPos`
while another row of the same scope (active or not) already holds it. -/
def updateThrows (db : List Row) (newPos : Int) (eid pid : String) : Bool :=
  (db.any fun r => r.id == eid && r.parentId == pid) &&
    (db.any fun s => s.parentId == pid && s.position == newPos && s.id != eid)

/-- A renumbering pass over constraint-checked writes: the first violating
write aborts the pass (the exception escapes the loop), leaving the rows
written so far in place. -/
def passFromChecked (pid : String) (posOf : Nat → Int) (i : Nat) (entries : List Entry)
    (db : List Row) : Bool × List Row :=
  match entries with
  | [] => (true, db)
  | e :: rest =>
      if e.id ≠ "" then
        if updateThrows db (posOf i) e.id pid then (false, db)
        else passFromChecked pid posOf (i + 1) rest (sqlUpdateOrder db (posOf i) e.id pid)
      else passFromChecked pid posOf (i + 1) rest db

/-- `DatabaseService.updateSectionOrder` over constraint-checked writes:
a throw in Phase A skips Phase B (the whole method body is one try). -/
def updateSectionOrderChecked (userId : String) (sections : List Entry) (db : List Row) :
    Bool × List Row :=
  if (passFromChecked userId (fun i => 1000 + (i : Int)) 0 sections db).1 then
    passFromChecked userId (fun i => (i : Int) + 1) 0 sections
      (passFromChecked userId (fun i => 1000 + (i : Int)) 0 sections db).2
  else passFromChecked userId (fun i => 1000 + (i : Int)) 0 sections db

/-- The sections reorder handler over the constraint-checked engine:
400 on a non-array body, 200 when every write succeeded, 500 when a write
violated the uniqueness constraint (server.ts 92-99). -/
def sectionsOrderHandlerChecked (userId : String) (sections : ReqVal) (db : List Row) :
    HandlerResult × List Row :=
  match sections with
  | .arr entries =>
      if (updateSectionOrderChecked userId entries db).1 then
        (.response 200 true, (updateSectionOrderChecked userId entries db).2)
      else (.response 500 false, (updateSectionOrderChecked userId entries db).2)
  | _ => (.response 400 false, db)

/-! ### Soft delete

`server.ts` calls `DatabaseService.deleteSection` / `deleteService` /
`deletePackage`, whose bodies are not part of the sources at hand; they are
modelled from the spec below. -/

/-- Modelled from the spec: the missing `DatabaseService.deleteSection` /
`deleteService` / `deletePackage` bodies.  Per §4.1,
`deactivate(entityId)` is a soft delete — it clears the active flag of the
named entity, is idempotent, and "never renumbers siblings (gaps are
permitted and expected after deletion)". -/
def deactivate (eid pid : String) (db : List Row) : List Row :=
  db.map fun r => if r.id = eid ∧ r.parentId = pid then { r with isActive := false } else r

/-- `DELETE /api/menu/:userId/sections/:sectionId` (server.ts 303-316):
deactivates the section and answers `{success:true, message}` (the catch
branch is unreachable in the pure model). -/
def deleteSectionHandler (userId sectionId : String) (db : List Row) :
    HandlerResult × List Row :=
  (.response 200 true, deactivate sectionId userId db)

/-- `DELETE /api/menu/:userId/sections/:sectionId/services/:serviceId`
(server.ts 319-341). -/
def deleteServiceHandler (sectionId serviceId : String) (db : List Row) :
    HandlerResult × List Row :=
  (.response 200 true, deactivate serviceId sectionId db)

/-- `DELETE /api/menu/:userId/sections/:sectionId/packages/:packageId`
(server.ts 344-366). -/
def deletePackageHandler (sectionId packageId : String) (db : List Row) :
    HandlerResult × List Row :=
  (.response 200 true, deactivate packageId sectionId db)

/-! ## Lemmas: pointwise characterization of the renumbering loops -/

theorem passFrom_eq_map (pid : String) (posOf : Nat → Int) :
    ∀ (entries : List Entry) (i : Nat) (db : List Row),
      passFrom pid posOf i entries db = db.map (passFn pid posOf i entries) := by
  intro entries
  induction entries with
  | nil =>
      intro i db
      simp only [passFrom]
      exact (List.map_id'' (fun r => rfl) db).symm
  | cons e rest ih =>
      intro i db
      by_cases he : e.id = ""
      · simp only [passFrom, he, ne_eq, not_true_eq_false, if_false]
        rw [ih]
        refine List.map_congr_left fun r _ => ?_
        simp [passFn, he]
      · simp only [passFrom, ne_eq, he, not_false_iff, if_true, sqlUpdateOrder]
        rw [ih, List.map_map]
        refine List.map_congr_left fun r _ => ?_
        simp [passFn, he, Function.comp]

theorem passFn_eq_passResult (pid : String) (posOf : Nat → Int) :
    ∀ (entries : List Entry) (i : Nat) (r : Row),
      passFn pid posOf i entries r = passResult pid posOf i entries r := by
  intro entries
  induction entries with
  | nil => intro i r; simp [passFn, passResult, lastIdxOf]
  | cons e rest ih =>
      intro i r
      simp only [passFn]
      rw [ih]
      by_cases hp : r.parentId = pid
      · rcases hL : lastIdxOf r.id rest with _ | j
        · by_cases hg : e.id = r.id ∧ e.id ≠ ""
          · have hrne : r.id ≠ "" := fun h => hg.2 (hg.1.trans h)
            rw [if_pos ⟨hg.2, hg.1.symm, hp⟩]
            simp [passResult, hp, lastIdxOf, hL, hg.1, hrne]
          · rw [if_neg fun hc => hg ⟨hc.2.1.symm, hc.1⟩]
            simp [passResult, hp, lastIdxOf, hL, hg]
        · by_cases hc : e.id ≠ "" ∧ r.id = e.id ∧ r.parentId = pid
          · rw [if_pos hc]
            simp only [passResult, hp, if_true, lastIdxOf, hL]
            congr 2
            omega
          · rw [if_neg hc]
            simp only [passResult, hp, if_true, lastIdxOf, hL]
            congr 2
            omega
      · rw [if_neg (by simp [hp])]
        simp [passResult, hp]

theorem passFrom_eq_map_passResult (pid : String) (posOf : Nat → Int)
    (entries : List Entry) (i : Nat) (db : List Row) :
    passFrom pid posOf i entries db = db.map (passResult pid posOf i entries) := by
  rw [passFrom_eq_map]
  exact List.map_congr_left fun r _ => passFn_eq_passResult pid posOf entries i r

/-- Master lemma: the whole two-phase operation acts on every row
independently, through `finalRow`. -/
theorem updateSectionOrder_eq_map (pid : String) (entries : List Entry) (db : List Row) :
    updateSectionOrder pid entries db = db.map (finalRow pid entries) := by
  unfold updateSectionOrder
  rw [passFrom_eq_map_passResult, passFrom_eq_map_passResult, List.map_map]
  refine List.map_congr_left fun r _ => ?_
  simp only [Function.comp]
  by_cases hp : r.parentId = pid
  · rcases hL : lastIdxOf r.id entries with _ | j
    · simp [passResult, finalRow, hp, hL]
    · simp [passResult, finalRow, hp, hL]
  · simp [passResult, finalRow, hp]

theorem updateServiceOrder_eq_section :
    updateServiceOrder = updateSectionOrder := rfl

theorem updatePackageOrder_eq_section :
    updatePackageOrder = updateSectionOrder := rfl

/-! ## Lemmas: `finalRow` and `lastIdxOf` -/

theorem finalRow_id (pid : String) (entries : List Entry) (r : Row) :
    (finalRow pid entries r).id = r.id := by
  by_cases hp : r.parentId = pid <;> rcases hL : lastIdxOf r.id entries with _ | j <;>
    simp [finalRow, hp, hL]

theorem finalRow_parentId (pid : String) (entries : List Entry) (r : Row) :
    (finalRow pid entries r).parentId = r.parentId := by
  by_cases hp : r.parentId = pid <;> rcases hL : lastIdxOf r.id entries with _ | j <;>
    simp [finalRow, hp, hL]

theorem finalRow_isActive (pid : String) (entries : List Entry) (r : Row) :
    (finalRow pid entries r).isActive = r.isActive := by
  by_cases hp : r.parentId = pid <;> rcases hL : lastIdxOf r.id entries with _ | j <;>
    simp [finalRow, hp, hL]

theorem finalRow_name (pid : String) (entries : List Entry) (r : Row) :
    (finalRow pid entries r).name = r.name := by
  by_cases hp : r.parentId = pid <;> rcases hL : lastIdxOf r.id entries with _ | j <;>
    simp [finalRow, hp, hL]

theorem finalRow_of_none (pid : String) (entries : List Entry) (r : Row)
    (h : lastIdxOf r.id entries = none) : finalRow pid entries r = r := by
  by_cases hp : r.parentId = pid <;> simp [finalRow, hp, h]

theorem finalRow_of_not_parent (pid : String) (entries : List Entry) (r : Row)
    (h : r.parentId ≠ pid) : finalRow pid entries r = r := by
  simp [finalRow, h]

theorem finalRow_of_some (pid : String) (entries : List Entry) (r : Row) (j : Nat)
    (hp : r.parentId = pid) (h : lastIdxOf r.id entries = some j) :
    finalRow pid entries r = { r with position := (j : Int) + 1 } := by
  simp [finalRow, hp, h]

theorem finalRow_finalRow (pid : String) (entries : List Entry) (r : Row) :
    finalRow pid entries (finalRow pid entries r) = finalRow pid entries r := by
  by_cases hp : r.parentId = pid
  · rcases hL : lastIdxOf r.id entries with _ | j
    · rw [finalRow_of_none pid entries r hL, finalRow_of_none pid entries r hL]
    · rw [finalRow_of_some pid entries r j hp hL]
      exact finalRow_of_some pid entries _ j hp hL
  · rw [finalRow_of_not_parent pid entries r hp, finalRow_of_not_parent pid entries r hp]

theorem lastIdxOf_eq_none (rid : String) :
    ∀ entries : List Entry, (∀ e ∈ entries, e.id ≠ rid) → lastIdxOf rid entries = none := by
  intro entries
  induction entries with
  | nil => intro _; rfl
  | cons e rest ih =>
      intro h
      have hrest := ih fun x hx => h x (List.mem_cons_of_mem e hx)
      simp [lastIdxOf, hrest, h e (List.mem_cons_self e rest)]

theorem lastIdxOf_isSome_of_mem (rid : String) (hne : rid ≠ "") :
    ∀ entries : List Entry, rid ∈ entries.map Entry.id → ∃ j, lastIdxOf rid entries = some j := by
  intro entries
  induction entries with
  | nil => intro h; simp at h
  | cons e rest ih =>
      intro h
      rcases hL : lastIdxOf rid rest with _ | j
      · simp only [List.map_cons, List.mem_cons] at h
        rcases h with h | h
        · have hene : e.id ≠ "" := fun hh => hne (h.trans hh)
          exact ⟨0, by simp [lastIdxOf, hL, h.symm, hene, hne]⟩
        · rcases ih h with ⟨j, hj⟩
          rw [hj] at hL
          cases hL
      · exact ⟨j + 1, by simp [lastIdxOf, hL]⟩

theorem lastIdxOf_get (rid : String) :
    ∀ (entries : List Entry) (j : Nat), lastIdxOf rid entries = some j →
      ∃ hj : j < entries.length, (entries.get ⟨j, hj⟩).id = rid := by
  intro entries
  induction entries with
  | nil => intro j h; simp [lastIdxOf] at h
  | cons e rest ih =>
      intro j h
      rcases hL : lastIdxOf rid rest with _ | j'
      · rw [lastIdxOf, hL] at h
        by_cases hg : e.id = rid ∧ e.id ≠ ""
        · rw [if_pos hg] at h
          cases h
          exact ⟨by simp, hg.1⟩
        · rw [if_neg hg] at h
          cases h
      · rw [lastIdxOf, hL] at h
        cases h
        rcases ih j' hL with ⟨hj', hid⟩
        exact ⟨by simpa using Nat.succ_lt_succ hj', hid⟩

theorem lastIdxOf_of_nodup :
    ∀ (entries : List Entry), (entries.map Entry.id).Nodup → (∀ e ∈ entries, e.id ≠ "") →
      ∀ (k : Nat) (hk : k < entries.length),
        lastIdxOf (entries.get ⟨k, hk⟩).id entries = some k := by
  intro entries
  induction entries with
  | nil => intro _ _ k hk; simp at hk
  | cons e rest ih =>
      intro hnd hne k hk
      match k with
      | 0 =>
          have hnotin : ∀ x ∈ rest, x.id ≠ e.id := by
            intro x hx hxe
            have : e.id ∈ rest.map Entry.id := hxe ▸ List.mem_map_of_mem Entry.id hx
            exact (List.nodup_cons.mp (by simpa using hnd)).1 this
          have hrest := lastIdxOf_eq_none e.id rest hnotin
          simp [lastIdxOf, hrest, hne e (List.mem_cons_self e rest)]
      | k + 1 =>
          have hk' : k < rest.length := by simpa using Nat.lt_of_succ_lt_succ hk
          have h2 := ih (List.nodup_cons.mp (by simpa using hnd)).2
            (fun x hx => hne x (List.mem_cons_of_mem e hx)) k hk'
          have h3 : lastIdxOf (rest[k].id) rest = some k := by simpa using h2
          simp [lastIdxOf, h3]

theorem lastIdxOf_map_of_id_preserving (rid : String) (f : Entry → Entry)
    (hf : ∀ e, (f e).id = e.id) :
    ∀ entries : List Entry, lastIdxOf rid (entries.map f) = lastIdxOf rid entries := by
  intro entries
  induction entries with
  | nil => rfl
  | cons e rest ih => simp [lastIdxOf, ih, hf]

/-! ## Lemmas: order fidelity of the reorder operations -/

theorem mem_activeChildren (pid : String) (db : List Row) (r : Row) :
    r ∈ activeChildren pid db ↔ r ∈ db ∧ r.parentId = pid ∧ r.isActive = true := by
  simp [activeChildren, List.mem_filter, Bool.and_eq_true, beq_iff_eq, and_assoc]

theorem activeChildren_update (pid : String) (entries : List Entry) (db : List Row) :
    activeChildren pid (updateSectionOrder pid entries db) =
      (activeChildren pid db).map (finalRow pid entries) := by
  rw [updateSectionOrder_eq_map]
  unfold activeChildren
  rw [List.filter_map]
  congr 1
  refine List.filter_congr fun r _ => ?_
  simp [Function.comp, finalRow_parentId, finalRow_isActive]

theorem activeIds_nodup (pid : String) (db : List Row) (hPK : (db.map Row.id).Nodup) :
    (activeIds pid db).Nodup := by
  unfold activeIds activeChildren
  exact hPK.sublist ((List.filter_sublist db).map Row.id)

theorem targetPositions_length (n : Nat) : (targetPositions n).length = n := by
  rw [targetPositions, List.length_map, List.length_range]

theorem targetPositions_get (n k : Nat) (h : k < (targetPositions n).length) :
    (targetPositions n).get ⟨k, h⟩ = (k : Int) + 1 := by
  simp only [targetPositions, List.get_eq_getElem, List.getElem_map, List.getElem_range]

theorem targetPositions_sorted (n : Nat) : (targetPositions n).Sorted (· ≤ ·) := by
  rw [targetPositions]
  refine List.pairwise_map.mpr ?_
  refine (List.pairwise_lt_range n).imp ?_
  intro a b hab
  show (a : Int) + 1 ≤ (b : Int) + 1
  omega

/-- Order fidelity: when the submitted list is a permutation of the scope's
active children (well-formed non-empty ids, primary keys unique), the next
`listActive` read returns the children in exactly the submitted order, with
positions `1..N`. -/
theorem listActive_update (pid : String) (entries : List Entry) (db : List Row)
    (hPK : (db.map Row.id).Nodup)
    (hPerm : List.Perm (entries.map Entry.id) (activeIds pid db))
    (hNE : ∀ e ∈ entries, e.id ≠ "") :
    (listActive pid (updateSectionOrder pid entries db)).map Row.id = entries.map Entry.id ∧
    (listActive pid (updateSectionOrder pid entries db)).map Row.position =
      targetPositions entries.length := by
  have hAC := activeChildren_update pid entries db
  have hSdef : listActive pid (updateSectionOrder pid entries db) =
      List.insertionSort posLE ((activeChildren pid db).map (finalRow pid entries)) := by
    rw [listActive, hAC]
  have hSperm : List.Perm (listActive pid (updateSectionOrder pid entries db))
      ((activeChildren pid db).map (finalRow pid entries)) := by
    rw [hSdef]; exact List.perm_insertionSort _ _
  have hSsorted : (listActive pid (updateSectionOrder pid entries db)).Sorted posLE := by
    rw [hSdef]; exact List.sorted_insertionSort _ _
  have hAids : activeIds pid db = (activeChildren pid db).map Row.id := rfl
  have hAids_nodup : ((activeChildren pid db).map Row.id).Nodup := by
    rw [← hAids]; exact activeIds_nodup pid db hPK
  have hmemA : ∀ r ∈ activeChildren pid db, r.parentId = pid ∧ r.isActive = true :=
    fun r hr => ((mem_activeChildren pid db r).mp hr).2
  have hidsA : ∀ r ∈ activeChildren pid db, r.id ∈ entries.map Entry.id := by
    intro r hr
    exact hPerm.symm.subset (hAids ▸ List.mem_map_of_mem Row.id hr)
  have hNEA : ∀ r ∈ activeChildren pid db, r.id ≠ "" := by
    intro r hr
    obtain ⟨e, he, hid⟩ := List.mem_map.mp (hidsA r hr)
    exact hid ▸ hNE e he
  have hUpos : ∀ r ∈ activeChildren pid db,
      (finalRow pid entries r).position = ((lastIdxOf r.id entries).getD 0 : Int) + 1 := by
    intro r hr
    obtain ⟨j, hj⟩ := lastIdxOf_isSome_of_mem r.id (hNEA r hr) entries (hidsA r hr)
    rw [finalRow_of_some pid entries r j (hmemA r hr).1 hj]
    simp [hj]
  have hmapPos : ((activeChildren pid db).map (finalRow pid entries)).map Row.position =
      ((activeChildren pid db).map Row.id).map
        (fun rid => ((lastIdxOf rid entries).getD 0 : Int) + 1) := by
    rw [List.map_map, List.map_map]
    exact List.map_congr_left fun r hr => hUpos r hr
  have hEnodup : (entries.map Entry.id).Nodup := hPerm.nodup_iff.mpr (hAids ▸ hAids_nodup)
  have hPerm2 : List.Perm ((activeChildren pid db).map Row.id) (entries.map Entry.id) := by
    rw [← hAids]; exact hPerm.symm
  have hgoalPos : ((entries.map Entry.id).map
      (fun rid => ((lastIdxOf rid entries).getD 0 : Int) + 1)) =
      targetPositions entries.length := by
    refine List.ext_get (by rw [List.length_map, List.length_map, targetPositions_length]) ?_
    intro n h1 h2
    have hn : n < entries.length := by simpa using h1
    have hidx := lastIdxOf_of_nodup entries hEnodup hNE n hn
    have hidx2 : lastIdxOf entries[n].id entries = some n := by
      simpa [List.get_eq_getElem] using hidx
    rw [targetPositions_get]
    simp [hidx2]
  have hPermPos : List.Perm
      ((listActive pid (updateSectionOrder pid entries db)).map Row.position)
      (targetPositions entries.length) := by
    rw [← hgoalPos]
    refine ((hSperm.map Row.position).trans ?_)
    rw [hmapPos]
    exact hPerm2.map _
  have hSortedPos : ((listActive pid (updateSectionOrder pid entries db)).map
      Row.position).Sorted (· ≤ ·) :=
    List.pairwise_map.mpr (hSsorted.imp fun h => h)
  have hPosEq : (listActive pid (updateSectionOrder pid entries db)).map Row.position =
      targetPositions entries.length :=
    List.eq_of_perm_of_sorted hPermPos hSortedPos (targetPositions_sorted _)
  have hAlen : (activeChildren pid db).length = entries.length := by
    have h0 := hPerm.length_eq
    rw [hAids] at h0
    simp only [List.length_map] at h0
    exact h0.symm
  have hlen : (listActive pid (updateSectionOrder pid entries db)).length = entries.length := by
    have h0 := hSperm.length_eq
    simpa [hAlen] using h0
  refine ⟨?_, hPosEq⟩
  refine List.ext_get (by rw [List.length_map, List.length_map, hlen]) ?_
  intro n h1 h2
  have hnS : n < (listActive pid (updateSectionOrder pid entries db)).length := by
    simpa using h1
  have hn : n < entries.length := by simpa using h2
  have eL : ((listActive pid (updateSectionOrder pid entries db)).map Row.id).get ⟨n, h1⟩ =
      ((listActive pid (updateSectionOrder pid entries db)).get ⟨n, hnS⟩).id := by
    simp
  have eR : ((entries.map Entry.id).get ⟨n, h2⟩) = (entries.get ⟨n, hn⟩).id := by
    simp
  rw [eL, eR]
  have hmemS : (listActive pid (updateSectionOrder pid entries db)).get ⟨n, hnS⟩ ∈
      (activeChildren pid db).map (finalRow pid entries) :=
    hSperm.subset (List.get_mem _ _ _)
  obtain ⟨r0, hr0, hr0eq⟩ := List.mem_map.mp hmemS
  have hnp : n < ((listActive pid (updateSectionOrder pid entries db)).map
      Row.position).length := by simpa using hnS
  have e1 := List.get_of_eq hPosEq ⟨n, hnp⟩
  have e2 : ((listActive pid (updateSectionOrder pid entries db)).map
      Row.position).get ⟨n, hnp⟩ =
      ((listActive pid (updateSectionOrder pid entries db)).get ⟨n, hnS⟩).position := by
    simp
  have hposn : ((listActive pid (updateSectionOrder pid entries db)).get ⟨n, hnS⟩).position =
      (n : Int) + 1 := by
    rw [← e2, e1]
    exact targetPositions_get _ _ _
  obtain ⟨j, hj⟩ := lastIdxOf_isSome_of_mem r0.id (hNEA r0 hr0) entries (hidsA r0 hr0)
  have hUr0 : finalRow pid entries r0 = { r0 with position := (j : Int) + 1 } :=
    finalRow_of_some pid entries r0 j (hmemA r0 hr0).1 hj
  have hjeq : j = n := by
    have hcast : ((j : Int) + 1) = (n : Int) + 1 := by
      rw [← hposn, ← hr0eq, hUr0]
    omega
  subst hjeq
  obtain ⟨hjlt, hjid⟩ := lastIdxOf_get r0.id entries j hj
  rw [← hr0eq, finalRow_id, ← hjid]

/-! ## Lemmas: write-by-write safety of the two phases -/

theorem passResult_id (pid : String) (posOf : Nat → Int) (i : Nat) (entries : List Entry)
    (r : Row) : (passResult pid posOf i entries r).id = r.id := by
  by_cases hp : r.parentId = pid <;> rcases hL : lastIdxOf r.id entries with _ | j <;>
    simp [passResult, hp, hL]

theorem passResult_parentId (pid : String) (posOf : Nat → Int) (i : Nat) (entries : List Entry)
    (r : Row) : (passResult pid posOf i entries r).parentId = r.parentId := by
  by_cases hp : r.parentId = pid <;> rcases hL : lastIdxOf r.id entries with _ | j <;>
    simp [passResult, hp, hL]

theorem passResult_isActive (pid : String) (posOf : Nat → Int) (i : Nat) (entries : List Entry)
    (r : Row) : (passResult pid posOf i entries r).isActive = r.isActive := by
  by_cases hp : r.parentId = pid <;> rcases hL : lastIdxOf r.id entries with _ | j <;>
    simp [passResult, hp, hL]

theorem passResult_of_some (pid : String) (posOf : Nat → Int) (i : Nat) (entries : List Entry)
    (r : Row) (j : Nat) (hp : r.parentId = pid) (hL : lastIdxOf r.id entries = some j) :
    passResult pid posOf i entries r = { r with position := posOf (i + j) } := by
  simp [passResult, hp, hL]

/-- Phase A never targets a position held by another active row in scope:
every row in scope still sits below the band `1000 + i`, while the write
targets exactly `1000 + i`. -/
theorem safePass_displace (pid : String) :
    ∀ (entries : List Entry) (i : Nat) (db : List Row),
      (∀ r ∈ db, r.isActive = true → r.parentId = pid → r.position < 1000 + (i : Int)) →
      SafePass pid (fun k => 1000 + (k : Int)) i entries db := by
  intro entries
  induction entries with
  | nil => intro i db _; trivial
  | cons e rest ih =>
      intro i db hB
      refine ⟨?_, ?_⟩
      · intro _ r hr hact hpar _
        exact ne_of_lt (hB r hr hact hpar)
      · by_cases he : e.id = ""
        · rw [if_neg (not_not_intro he)]
          refine ih (i + 1) db ?_
          intro r hr ha hp
          refine lt_trans (hB r hr ha hp) ?_
          push_cast
          omega
        · rw [if_pos he]
          refine ih (i + 1) _ ?_
          intro r hr ha hp
          simp only [sqlUpdateOrder, List.mem_map] at hr
          obtain ⟨r0, hr0, rfl⟩ := hr
          by_cases hc : r0.id = e.id ∧ r0.parentId = pid
          · simp only [if_pos hc] at ha hp ⊢
            show (1000 + (i : Int)) < 1000 + ((i + 1 : Nat) : Int)
            push_cast
            omega
          · simp only [if_neg hc] at ha hp ⊢
            refine lt_trans (hB r0 hr0 ha hp) ?_
            push_cast
            omega

/-- Phase B never targets a position held by another active row in scope:
rows already settled sit at `1..i`, rows not yet settled sit in the
displaced band at `1000 + i + j`, while the write targets `i + 1`. -/
theorem safePass_settle (pid : String) :
    ∀ (rest : List Entry) (i : Nat) (db : List Row),
      (∀ r ∈ db, r.isActive = true → r.parentId = pid →
        (r.position < (i : Int) + 1 ∨
          ∃ j, lastIdxOf r.id rest = some j ∧ r.position = 1000 + (i : Int) + (j : Int))) →
      SafePass pid (fun k => (k : Int) + 1) i rest db := by
  intro rest
  induction rest with
  | nil => intro i db _; trivial
  | cons e rest ih =>
      intro i db hB
      refine ⟨?_, ?_⟩
      · intro _ r hr hact hpar _
        rcases hB r hr hact hpar with h | ⟨j, _, hpos⟩
        · exact ne_of_lt h
        · rw [hpos]
          show (1000 + (i : Int) + (j : Int)) ≠ (i : Int) + 1
          omega
      · by_cases he : e.id = ""
        · rw [if_neg (not_not_intro he)]
          refine ih (i + 1) db ?_
          intro r hr ha hp
          rcases hB r hr ha hp with h | ⟨j, hj, hpos⟩
          · left; push_cast; omega
          · rcases hrest : lastIdxOf r.id rest with _ | j'
            · rw [lastIdxOf, hrest] at hj
              rw [if_neg (by simp [he])] at hj
              cases hj
            · rw [lastIdxOf, hrest] at hj
              cases hj
              refine Or.inr ⟨j', rfl, ?_⟩
              push_cast at hpos ⊢
              omega
        · rw [if_pos he]
          refine ih (i + 1) _ ?_
          intro r hr ha hp
          simp only [sqlUpdateOrder, List.mem_map] at hr
          obtain ⟨r0, hr0, rfl⟩ := hr
          by_cases hc : r0.id = e.id ∧ r0.parentId = pid
          · simp only [if_pos hc] at ha hp ⊢
            left
            show ((i : Int) + 1) < ((i + 1 : Nat) : Int) + 1
            push_cast
            omega
          · simp only [if_neg hc] at ha hp ⊢
            rcases hB r0 hr0 ha hp with h | ⟨j, hj, hpos⟩
            · left; push_cast; omega
            · rcases hrest : lastIdxOf r0.id rest with _ | j'
              · rw [lastIdxOf, hrest] at hj
                by_cases hg : e.id = r0.id ∧ e.id ≠ ""
                · exact absurd ⟨hg.1.symm, hp⟩ hc
                · rw [if_neg hg] at hj
                  cases hj
              · rw [lastIdxOf, hrest] at hj
                cases hj
                refine Or.inr ⟨j', rfl, ?_⟩
                push_cast at hpos ⊢
                omega

/-- A write whose target collides with no other active row of the scope
preserves uniqueness among active rows; hence, along a safe pass, every
intermediate state keeps the active-scoped uniqueness invariant. -/
theorem uniqActive_passStates (pid : String) (posOf : Nat → Int) :
    ∀ (entries : List Entry) (i : Nat) (db : List Row),
      SafePass pid posOf i entries db →
      db.Pairwise (fun r s => r.id ≠ s.id) →
      UniqActive pid db →
      ∀ s ∈ passStates pid posOf i entries db, UniqActive pid s := by
  intro entries
  induction entries with
  | nil =>
      intro i db _ _ hU s hs
      simp only [passStates, List.mem_singleton] at hs
      exact hs ▸ hU
  | cons e rest ih =>
      intro i db hSafe hIds hU s hs
      rw [passStates] at hs
      rcases List.mem_cons.mp hs with rfl | hs2
      · exact hU
      · by_cases he : e.id = ""
        · have h2 := hSafe.2
          rw [if_neg (not_not_intro he)] at h2 hs2
          exact ih (i + 1) db h2 hIds hU s hs2
        · have h2 := hSafe.2
          have harr := hSafe.1 he
          rw [if_pos he] at h2 hs2
          have hIds2 : (sqlUpdateOrder db (posOf i) e.id pid).Pairwise
              (fun r s => r.id ≠ s.id) := by
            unfold sqlUpdateOrder
            refine List.pairwise_map.mpr ?_
            refine hIds.imp ?_
            intro a b hab
            show (if a.id = e.id ∧ a.parentId = pid then _ else a).id ≠
              (if b.id = e.id ∧ b.parentId = pid then _ else b).id
            split_ifs <;> exact hab
          have hU2 : UniqActive pid (sqlUpdateOrder db (posOf i) e.id pid) := by
            unfold UniqActive sqlUpdateOrder
            refine List.pairwise_map.mpr ?_
            refine (hU.and hIds).imp_of_mem ?_
            intro a b hma hmb hab
            intro ha hb hpa hpb
            by_cases hca : a.id = e.id ∧ a.parentId = pid <;>
              by_cases hcb : b.id = e.id ∧ b.parentId = pid
            · exact absurd (hca.1.trans hcb.1.symm) hab.2
            · simp only [if_pos hca, if_neg hcb] at ha hb hpa hpb ⊢
              exact (harr b hmb hb hpb fun hbe => hcb ⟨hbe, hpb⟩).symm
            · simp only [if_neg hca, if_pos hcb] at ha hb hpa hpb ⊢
              exact harr a hma ha hpa fun hae => hca ⟨hae, hpa⟩
            · simp only [if_neg hca, if_neg hcb] at ha hb hpa hpb ⊢
              exact hab.1 ha hb hpa hpb
          exact ih (i + 1) _ h2 hIds2 hU2 s hs2

/-- The final state of a pass is among its intermediate states. -/
theorem passFrom_mem_passStates (pid : String) (posOf : Nat → Int) :
    ∀ (entries : List Entry) (i : Nat) (db : List Row),
      passFrom pid posOf i entries db ∈ passStates pid posOf i entries db := by
  intro entries
  induction entries with
  | nil => intro i db; simp [passFrom, passStates]
  | cons e rest ih =>
      intro i db
      rw [passFrom, passStates]
      exact List.mem_cons_of_mem _ (ih (i + 1) _)

/-- Any pass preserves pairwise-distinct primary keys. -/
theorem passFrom_pairwise_ids (pid : String) (posOf : Nat → Int) (entries : List Entry)
    (i : Nat) (db : List Row) (hIds : db.Pairwise (fun r s => r.id ≠ s.id)) :
    (passFrom pid posOf i entries db).Pairwise (fun r s => r.id ≠ s.id) := by
  rw [passFrom_eq_map_passResult]
  refine List.pairwise_map.mpr ?_
  refine hIds.imp ?_
  intro a b hab
  show (passResult pid posOf i entries a).id ≠ (passResult pid posOf i entries b).id
  rw [passResult_id, passResult_id]
  exact hab

theorem updateSectionOrder_idem (pid : String) (entries : List Entry) (db : List Row) :
    updateSectionOrder pid entries (updateSectionOrder pid entries db) =
      updateSectionOrder pid entries db := by
  rw [updateSectionOrder_eq_map, updateSectionOrder_eq_map, List.map_map]
  exact List.map_congr_left fun r _ => finalRow_finalRow pid entries r

/-- After Phase A, every active row of the scope sits in the displaced
band: at `1000 + j` for its (last) index `j` in the submitted list. -/
theorem displaced_band (pid : String) (entries : List Entry) (db : List Row)
    (hPerm : List.Perm (entries.map Entry.id) (activeIds pid db))
    (hNE : ∀ e ∈ entries, e.id ≠ "") :
    ∀ r ∈ passFrom pid (fun k => 1000 + (k : Int)) 0 entries db,
      r.isActive = true → r.parentId = pid →
        ∃ j, lastIdxOf r.id entries = some j ∧
          r.position = 1000 + (0 : Int) + (j : Int) := by
  intro r hr ha hp
  rw [passFrom_eq_map_passResult] at hr
  obtain ⟨r0, hr0, rfl⟩ := List.mem_map.mp hr
  rw [passResult_isActive] at ha
  rw [passResult_parentId] at hp
  have hmem : r0 ∈ activeChildren pid db := (mem_activeChildren pid db r0).mpr ⟨hr0, hp, ha⟩
  have hid : r0.id ∈ entries.map Entry.id :=
    hPerm.symm.subset (List.mem_map_of_mem Row.id hmem)
  have hne : r0.id ≠ "" := by
    obtain ⟨e, he, heid⟩ := List.mem_map.mp hid
    exact heid ▸ hNE e he
  obtain ⟨j, hj⟩ := lastIdxOf_isSome_of_mem r0.id hne entries hid
  refine ⟨j, by rw [passResult_id]; exact hj, ?_⟩
  rw [passResult_of_some pid _ 0 entries r0 j hp hj]
  show (1000 + ((0 + j : Nat) : Int)) = 1000 + (0 : Int) + (j : Int)
  push_cast
  ring

/-- A pass is the left fold of its guarded writes over the enumerated
input list. -/
theorem passFrom_eq_foldl (pid : String) (posOf : Nat → Int) :
    ∀ (entries : List Entry) (i : Nat) (db : List Row),
      passFrom pid posOf i entries db =
        (entries.enumFrom i).foldl
          (fun acc ie =>
            if ie.2.id ≠ "" then sqlUpdateOrder acc (posOf ie.1) ie.2.id pid else acc) db := by
  intro entries
  induction entries with
  | nil => intro i db; rfl
  | cons e rest ih =>
      intro i db
      rw [passFrom, ih]
      rfl

theorem getMenuData_map_id (userId : String) (db : Db) :
    (getMenuData userId db).map MenuSection.id = (listActive userId db.sections).map Row.id := by
  rw [getMenuData, List.map_map]
  exact List.map_congr_left fun sec _ => rfl

theorem getMenuData_map_position (userId : String) (db : Db) :
    (getMenuData userId db).map MenuSection.position =
      (listActive userId db.sections).map Row.position := by
  rw [getMenuData, List.map_map]
  exact List.map_congr_left fun sec _ => rfl

/-! ## Lemmas: the constraint-checked path -/

theorem passFromChecked_success (pid : String) (posOf : Nat → Int) :
    ∀ (entries : List Entry) (i : Nat) (db : List Row),
      (passFromChecked pid posOf i entries db).1 = true →
      (passFromChecked pid posOf i entries db).2 = passFrom pid posOf i entries db := by
  intro entries
  induction entries with
  | nil => intro i db _; rfl
  | cons e rest ih =>
      intro i db h
      rw [passFromChecked] at h ⊢
      rw [passFrom]
      by_cases he : e.id = ""
      · rw [if_neg (not_not_intro he)] at h ⊢
        rw [if_neg (not_not_intro he)]
        exact ih (i + 1) db h
      · rw [if_pos he] at h ⊢
        rw [if_pos he]
        by_cases ht : updateThrows db (posOf i) e.id pid = true
        · rw [if_pos ht] at h
          simp at h
        · rw [if_neg ht] at h ⊢
          exact ih (i + 1) _ h

theorem updateSectionOrderChecked_success (userId : String) (entries : List Entry)
    (db : List Row) (h : (updateSectionOrderChecked userId entries db).1 = true) :
    (updateSectionOrderChecked userId entries db).2 =
      updateSectionOrder userId entries db := by
  rw [updateSectionOrderChecked] at h ⊢
  by_cases ha : (passFromChecked userId (fun i => 1000 + (i : Int)) 0 entries db).1 = true
  · rw [if_pos ha] at h ⊢
    rw [passFromChecked_success userId _ entries 0 db ha] at h ⊢
    exact passFromChecked_success userId _ entries 0 _ h
  · rw [if_neg ha] at h
    exact absurd h ha

theorem sectionsOrderHandlerChecked_success (userId : String) (entries : List Entry)
    (db : List Row)
    (h : (sectionsOrderHandlerChecked userId (ReqVal.arr entries) db).1 =
      HandlerResult.response 200 true) :
    (sectionsOrderHandlerChecked userId (ReqVal.arr entries) db).2 =
      updateSectionOrder userId entries db := by
  rw [sectionsOrderHandlerChecked] at h ⊢
  by_cases hu : (updateSectionOrderChecked userId entries db).1 = true
  · rw [if_pos hu] at h ⊢
    exact updateSectionOrderChecked_success userId entries db hu
  · rw [if_neg hu] at h
    simp at h

theorem passFromChecked_map_of_id_preserving (pid : String) (posOf : Nat → Int)
    (f : Entry → Entry) (hf : ∀ e, (f e).id = e.id) :
    ∀ (entries : List Entry) (i : Nat) (db : List Row),
      passFromChecked pid posOf i (entries.map f) db =
        passFromChecked pid posOf i entries db := by
  intro entries
  induction entries with
  | nil => intro i db; rfl
  | cons e rest ih =>
      intro i db
      rw [List.map_cons, passFromChecked, passFromChecked, hf e]
      by_cases he : e.id = ""
      · rw [if_neg (not_not_intro he), if_neg (not_not_intro he), ih]
      · rw [if_pos he, if_pos he]
        by_cases ht : updateThrows db (posOf i) e.id pid = true
        · rw [if_pos ht, if_pos ht]
        · rw [if_neg ht, if_neg ht, ih]

theorem sectionsOrderHandlerChecked_order_ignored (userId : String) (entries : List Entry)
    (db : List Row) (f : Entry → Entry) (hf : ∀ e, (f e).id = e.id) :
    sectionsOrderHandlerChecked userId (ReqVal.arr (entries.map f)) db =
      sectionsOrderHandlerChecked userId (ReqVal.arr entries) db := by
  simp only [sectionsOrderHandlerChecked, updateSectionOrderChecked,
    passFromChecked_map_of_id_preserving userId _ f hf]

/-! ## Claim theorems -/

/-- C1, counterexample: a reorder request accepted with `{success:true}` can
store a position different from the client-supplied `order` value.  One
section `a` at position 3; the request `[{id:a, order:5}]` is accepted, yet
the stored position becomes 1 (its 1-based array index), not the submitted
5: the engine re-derives rank from the array index. -/
theorem claim_C1_counterexample :
    (sectionsOrderHandlerChecked "u" (ReqVal.arr [⟨"a", 5⟩])
        [⟨"a", "u", "X", 3, true⟩]).1 = HandlerResult.response 200 true ∧
    (sectionsOrderHandlerChecked "u" (ReqVal.arr [⟨"a", 5⟩])
        [⟨"a", "u", "X", 3, true⟩]).2 = [⟨"a", "u", "X", 1, true⟩] ∧
    (1 : Int) ≠ 5 := by decide

/-- C1 (amended): the target position written for a listed entity is never
the client-supplied `order` value.  For the sections endpoint — the only
reorder endpoint whose engine call binds its arguments correctly — the
supplied `order` values are ignored (rewriting them all changes nothing)
and a successful reorder stores, for each listed row in scope, the
position `j + 1` for its (last) array index `j` (`finalRow`).  The
services and packages endpoints issue no writes at all: server.ts passes
three arguments to the two-parameter engine methods, the list parameter
binds to the `sectionId` string, and the stored rows come back unchanged
even though the endpoint answers success. -/
theorem claim_C1 (pid : String) (entries : List Entry) (db : List Row)
    (f : Entry → Entry) (hf : ∀ e, (f e).id = e.id)
    (userId sectionId : String) (sdb pdb : List Row)
    (hOK : (sectionsOrderHandlerChecked pid (ReqVal.arr entries) db).1 =
      HandlerResult.response 200 true) :
    sectionsOrderHandlerChecked pid (ReqVal.arr (entries.map f)) db =
      sectionsOrderHandlerChecked pid (ReqVal.arr entries) db ∧
    (sectionsOrderHandlerChecked pid (ReqVal.arr entries) db).2 =
      db.map (finalRow pid entries) ∧
    servicesOrderHandler userId sectionId (ReqVal.arr entries) sdb =
      (HandlerResult.response 200 true, sdb) ∧
    packagesOrderHandler userId sectionId (ReqVal.arr entries) pdb =
      (HandlerResult.response 200 true, pdb) := by
  refine ⟨sectionsOrderHandlerChecked_order_ignored pid entries db f hf, ?_, rfl, rfl⟩
  rw [sectionsOrderHandlerChecked_success pid entries db hOK]
  exact updateSectionOrder_eq_map pid entries db

/-- Witness for C1 at a concrete input: a successful sections reorder whose
outcome ignores the submitted `order` values, and no-op services and
packages reorders that still answer success. -/
theorem claim_C1_witness :
    (∀ e : Entry, ((fun e : Entry => Entry.mk e.id (e.order + 100)) e).id = e.id) ∧
    (sectionsOrderHandlerChecked "u" (ReqVal.arr [⟨"a", 5⟩])
        [⟨"a", "u", "X", 3, true⟩]).1 = HandlerResult.response 200 true ∧
    (sectionsOrderHandlerChecked "u"
        (ReqVal.arr ([⟨"a", 5⟩].map fun e : Entry => Entry.mk e.id (e.order + 100)))
        [⟨"a", "u", "X", 3, true⟩] =
      sectionsOrderHandlerChecked "u" (ReqVal.arr [⟨"a", 5⟩])
        [⟨"a", "u", "X", 3, true⟩] ∧
    (sectionsOrderHandlerChecked "u" (ReqVal.arr [⟨"a", 5⟩])
        [⟨"a", "u", "X", 3, true⟩]).2 =
      [⟨"a", "u", "X", 3, true⟩].map (finalRow "u" [⟨"a", 5⟩]) ∧
    servicesOrderHandler "v" "s" (ReqVal.arr [⟨"a", 5⟩]) [⟨"q", "s", "Q", 4, true⟩] =
      (HandlerResult.response 200 true, [⟨"q", "s", "Q", 4, true⟩]) ∧
    packagesOrderHandler "v" "s" (ReqVal.arr [⟨"a", 5⟩]) [⟨"w", "s", "W", 6, true⟩] =
      (HandlerResult.response 200 true, [⟨"w", "s", "W", 6, true⟩])) :=
  ⟨fun _ => rfl, by decide,
   claim_C1 "u" [⟨"a", 5⟩] [⟨"a", "u", "X", 3, true⟩]
     (fun e : Entry => Entry.mk e.id (e.order + 100)) (fun _ => rfl)
     "v" "s" [⟨"q", "s", "Q", 4, true⟩] [⟨"w", "s", "W", 6, true⟩] (by decide)⟩

/-- C2, failing input: section `s1` holds active services `a` at position 1
and `b` at position 2; `PUT .../services/order` with the permutation
`[b, a]` is answered `{success:true}`, yet the stored rows are untouched
and the next ordered read still returns `a, b` — not the submitted order.
The engine itself, called with the list as
`DatabaseService.updateServiceOrder(sectionId, services)`, produces the
submitted order: the bug is the call at server.ts 118 (and 153 for
packages), which passes `(userId, sectionId, services)` to the
two-parameter method, binding the list parameter to the `sectionId`
string, so no write is ever issued.  The packages endpoint fails the same
way. -/
theorem claim_C2 :
    (servicesOrderHandler "u" "s1" (ReqVal.arr [⟨"b", 1⟩, ⟨"a", 2⟩])
        [⟨"a", "s1", "A", 1, true⟩, ⟨"b", "s1", "B", 2, true⟩]).1 =
      HandlerResult.response 200 true ∧
    (servicesOrderHandler "u" "s1" (ReqVal.arr [⟨"b", 1⟩, ⟨"a", 2⟩])
        [⟨"a", "s1", "A", 1, true⟩, ⟨"b", "s1", "B", 2, true⟩]).2 =
      [⟨"a", "s1", "A", 1, true⟩, ⟨"b", "s1", "B", 2, true⟩] ∧
    (listActive "s1" (servicesOrderHandler "u" "s1" (ReqVal.arr [⟨"b", 1⟩, ⟨"a", 2⟩])
        [⟨"a", "s1", "A", 1, true⟩, ⟨"b", "s1", "B", 2, true⟩]).2).map Row.id =
      ["a", "b"] ∧
    (["a", "b"] : List String) ≠ ["b", "a"] ∧
    (listActive "s1" (updateServiceOrder "s1" [⟨"b", 1⟩, ⟨"a", 2⟩]
        [⟨"a", "s1", "A", 1, true⟩, ⟨"b", "s1", "B", 2, true⟩])).map Row.id =
      ["b", "a"] ∧
    (packagesOrderHandler "u" "s1" (ReqVal.arr [⟨"q", 1⟩, ⟨"p", 2⟩])
        [⟨"p", "s1", "P", 1, true⟩, ⟨"q", "s1", "Q", 2, true⟩]).1 =
      HandlerResult.response 200 true ∧
    (listActive "s1" (packagesOrderHandler "u" "s1" (ReqVal.arr [⟨"q", 1⟩, ⟨"p", 2⟩])
        [⟨"p", "s1", "P", 1, true⟩, ⟨"q", "s1", "Q", 2, true⟩]).2).map Row.id =
      ["p", "q"] := by decide

/-- C3: when the submitted list is a permutation of an owner's active
sections and the PUT is successful (every constraint-checked write went
through), the next `GET /menu/{ownerId}` returns the sections in exactly
the submitted order with positions `1..N`. -/
theorem claim_C3 (userId : String) (entries : List Entry) (db : Db)
    (hPK : (db.sections.map Row.id).Nodup)
    (hPerm : List.Perm (entries.map Entry.id) (activeIds userId db.sections))
    (hNE : ∀ e ∈ entries, e.id ≠ "")
    (hOK : (sectionsOrderHandlerChecked userId (ReqVal.arr entries) db.sections).1 =
      HandlerResult.response 200 true) :
    (getMenuData userId { db with sections :=
        (sectionsOrderHandlerChecked userId (ReqVal.arr entries) db.sections).2 }).map
        MenuSection.id = entries.map Entry.id ∧
    (getMenuData userId { db with sections :=
        (sectionsOrderHandlerChecked userId (ReqVal.arr entries) db.sections).2 }).map
        MenuSection.position = targetPositions entries.length := by
  have hst := sectionsOrderHandlerChecked_success userId entries db.sections hOK
  have hfid := listActive_update userId entries db.sections hPK hPerm hNE
  refine ⟨?_, ?_⟩
  · rw [getMenuData_map_id]
    dsimp only
    rw [hst]
    exact hfid.1
  · rw [getMenuData_map_position]
    dsimp only
    rw [hst]
    exact hfid.2

/-- Witness for C3 at the spec's Scenario A: sections X, Y, Z at positions
1, 2, 3; the request lists Z, X, Y; the PUT succeeds and the menu returns
Z, X, Y at 1, 2, 3. -/
theorem claim_C3_witness :
    ((([⟨"x", "u", "X", 1, true⟩, ⟨"y", "u", "Y", 2, true⟩, ⟨"z", "u", "Z", 3, true⟩] :
        List Row).map Row.id).Nodup) ∧
    List.Perm ([⟨"z", 1⟩, ⟨"x", 2⟩, ⟨"y", 3⟩].map Entry.id)
      (activeIds "u"
        [⟨"x", "u", "X", 1, true⟩, ⟨"y", "u", "Y", 2, true⟩, ⟨"z", "u", "Z", 3, true⟩]) ∧
    (∀ e ∈ ([⟨"z", 1⟩, ⟨"x", 2⟩, ⟨"y", 3⟩] : List Entry), e.id ≠ "") ∧
    (sectionsOrderHandlerChecked "u" (ReqVal.arr [⟨"z", 1⟩, ⟨"x", 2⟩, ⟨"y", 3⟩])
        (Db.mk [⟨"x", "u", "X", 1, true⟩, ⟨"y", "u", "Y", 2, true⟩,
          ⟨"z", "u", "Z", 3, true⟩] [] [] []).sections).1 =
      HandlerResult.response 200 true ∧
    ((getMenuData "u" { Db.mk [⟨"x", "u", "X", 1, true⟩, ⟨"y", "u", "Y", 2, true⟩,
          ⟨"z", "u", "Z", 3, true⟩] [] [] [] with sections :=
        (sectionsOrderHandlerChecked "u" (ReqVal.arr [⟨"z", 1⟩, ⟨"x", 2⟩, ⟨"y", 3⟩])
          (Db.mk [⟨"x", "u", "X", 1, true⟩, ⟨"y", "u", "Y", 2, true⟩,
            ⟨"z", "u", "Z", 3, true⟩] [] [] []).sections).2 }).map MenuSection.id =
      [⟨"z", 1⟩, ⟨"x", 2⟩, ⟨"y", 3⟩].map Entry.id ∧
    (getMenuData "u" { Db.mk [⟨"x", "u", "X", 1, true⟩, ⟨"y", "u", "Y", 2, true⟩,
          ⟨"z", "u", "Z", 3, true⟩] [] [] [] with sections :=
        (sectionsOrderHandlerChecked "u" (ReqVal.arr [⟨"z", 1⟩, ⟨"x", 2⟩, ⟨"y", 3⟩])
          (Db.mk [⟨"x", "u", "X", 1, true⟩, ⟨"y", "u", "Y", 2, true⟩,
            ⟨"z", "u", "Z", 3, true⟩] [] [] []).sections).2 }).map MenuSection.position =
      targetPositions 3) :=
  ⟨by decide, by decide, by decide, by decide,
   claim_C3 "u" [⟨"z", 1⟩, ⟨"x", 2⟩, ⟨"y", 3⟩]
     (Db.mk [⟨"x", "u", "X", 1, true⟩, ⟨"y", "u", "Y", 2, true⟩,
       ⟨"z", "u", "Z", 3, true⟩] [] [] [])
     (by decide) (by decide) (by decide) (by decide)⟩

/-- C4: each of the three reorder operations is exactly the spec's
two-phase renumber — Phase A (displace) writes `OFFSET + index`
(`OFFSET = 1000`) for each listed entity in list order, then Phase B
(settle) writes `index + 1`, every write scoped to `(entityId, parentId)`. -/
theorem claim_C4 : ∀ (pid : String) (entries : List Entry) (db : List Row),
    updateSectionOrder pid entries db =
      specPhaseB pid entries (specPhaseA pid entries db) ∧
    updateServiceOrder pid entries db =
      specPhaseB pid entries (specPhaseA pid entries db) ∧
    updatePackageOrder pid entries db =
      specPhaseB pid entries (specPhaseA pid entries db) := by
  intro pid entries db
  have hA : specPhaseA pid entries db =
      passFrom pid (fun k => 1000 + (k : Int)) 0 entries db := by
    rw [specPhaseA, passFrom_eq_foldl]
    rfl
  have hB : ∀ d, specPhaseB pid entries d =
      passFrom pid (fun k => (k : Int) + 1) 0 entries d := by
    intro d
    rw [specPhaseB, passFrom_eq_foldl]
    rfl
  refine ⟨?_, ?_, ?_⟩ <;> rw [hB, hA] <;> rfl

/-- C5, counterexample: the claim's conclusion that the cited
`UNIQUE(user_id, display_order)` constraint is never violated is false,
because that physical constraint also covers soft-deleted rows.  Scope of
owner `u`: active sections `a` at 1 and `b` at 3, soft-deleted section `d`
still holding position 2; every pre-existing position is below 1000, the
request is a permutation of the active children, and the pre-state
satisfies the constraint — yet after the operation `b` holds position 2
alongside the inactive `d`, violating `UNIQUE(user_id, display_order)`. -/
theorem claim_C5_counterexample :
    (∀ r ∈ ([⟨"a", "u", "A", 1, true⟩, ⟨"d", "u", "D", 2, false⟩,
        ⟨"b", "u", "B", 3, true⟩] : List Row), r.parentId = "u" → r.position < 1000) ∧
    List.Perm ([⟨"a", 1⟩, ⟨"b", 2⟩].map Entry.id)
      (activeIds "u" [⟨"a", "u", "A", 1, true⟩, ⟨"d", "u", "D", 2, false⟩,
        ⟨"b", "u", "B", 3, true⟩]) ∧
    UniqAllRows "u" [⟨"a", "u", "A", 1, true⟩, ⟨"d", "u", "D", 2, false⟩,
      ⟨"b", "u", "B", 3, true⟩] ∧
    ¬ UniqAllRows "u" (updateSectionOrder "u" [⟨"a", 1⟩, ⟨"b", 2⟩]
      [⟨"a", "u", "A", 1, true⟩, ⟨"d", "u", "D", 2, false⟩,
        ⟨"b", "u", "B", 3, true⟩]) := by decide

/-- C5 (amended): when the input list is a permutation of the scope's
active children, primary keys are unique, every pre-existing position in
the scope is below the displacement offset 1000, and the active rows of
the scope start with pairwise-distinct positions, then no individual write
of either phase assigns a position held by another ACTIVE row of the scope
at the moment of that write, and uniqueness of positions among the
scope's active rows holds in every intermediate state of the operation.
(The physical constraint over all rows, inactive included, can still be
violated — see the counterexample.) -/
theorem claim_C5 (pid : String) (entries : List Entry) (db : List Row)
    (hBound : ∀ r ∈ db, r.parentId = pid → r.position < 1000)
    (hPerm : List.Perm (entries.map Entry.id) (activeIds pid db))
    (hNE : ∀ e ∈ entries, e.id ≠ "")
    (hPK : db.Pairwise (fun r s => r.id ≠ s.id))
    (hU : UniqActive pid db) :
    SafePass pid (fun k => 1000 + (k : Int)) 0 entries db ∧
    SafePass pid (fun k => (k : Int) + 1) 0 entries
      (passFrom pid (fun k => 1000 + (k : Int)) 0 entries db) ∧
    ∀ s ∈ operationStates pid entries db, UniqActive pid s := by
  have hA : SafePass pid (fun k => 1000 + (k : Int)) 0 entries db := by
    refine safePass_displace pid entries 0 db ?_
    intro r hr _ hp
    have := hBound r hr hp
    push_cast
    omega
  have hB : SafePass pid (fun k => (k : Int) + 1) 0 entries
      (passFrom pid (fun k => 1000 + (k : Int)) 0 entries db) := by
    refine safePass_settle pid entries 0 _ ?_
    intro r hr ha hp
    exact Or.inr (displaced_band pid entries db hPerm hNE r hr ha hp)
  refine ⟨hA, hB, ?_⟩
  intro s hs
  rw [operationStates] at hs
  rcases List.mem_append.mp hs with h | h
  · exact uniqActive_passStates pid _ entries 0 db hA hPK hU s h
  · have hUA : UniqActive pid (passFrom pid (fun k => 1000 + (k : Int)) 0 entries db) :=
      uniqActive_passStates pid _ entries 0 db hA hPK hU _
        (passFrom_mem_passStates pid _ entries 0 db)
    have hIdsA := passFrom_pairwise_ids pid (fun k => 1000 + (k : Int)) entries 0 db hPK
    exact uniqActive_passStates pid _ entries 0 _ hB hIdsA hUA s h

/-- Witness for C5 at a concrete input: two active rows swapped. -/
theorem claim_C5_witness :
    (∀ r ∈ ([⟨"x", "p", "X", 1, true⟩, ⟨"y", "p", "Y", 2, true⟩] : List Row),
      r.parentId = "p" → r.position < 1000) ∧
    List.Perm ([⟨"y", 1⟩, ⟨"x", 2⟩].map Entry.id)
      (activeIds "p" [⟨"x", "p", "X", 1, true⟩, ⟨"y", "p", "Y", 2, true⟩]) ∧
    (∀ e ∈ ([⟨"y", 1⟩, ⟨"x", 2⟩] : List Entry), e.id ≠ "") ∧
    ([⟨"x", "p", "X", 1, true⟩, ⟨"y", "p", "Y", 2, true⟩] : List Row).Pairwise
      (fun r s => r.id ≠ s.id) ∧
    UniqActive "p" [⟨"x", "p", "X", 1, true⟩, ⟨"y", "p", "Y", 2, true⟩] ∧
    (SafePass "p" (fun k => 1000 + (k : Int)) 0 [⟨"y", 1⟩, ⟨"x", 2⟩]
      [⟨"x", "p", "X", 1, true⟩, ⟨"y", "p", "Y", 2, true⟩] ∧
    SafePass "p" (fun k => (k : Int) + 1) 0 [⟨"y", 1⟩, ⟨"x", 2⟩]
      (passFrom "p" (fun k => 1000 + (k : Int)) 0 [⟨"y", 1⟩, ⟨"x", 2⟩]
        [⟨"x", "p", "X", 1, true⟩, ⟨"y", "p", "Y", 2, true⟩]) ∧
    ∀ s ∈ operationStates "p" [⟨"y", 1⟩, ⟨"x", 2⟩]
      [⟨"x", "p", "X", 1, true⟩, ⟨"y", "p", "Y", 2, true⟩], UniqActive "p" s) :=
  ⟨by decide, by decide, by decide, by decide, by decide,
   claim_C5 "p" [⟨"y", 1⟩, ⟨"x", 2⟩]
     [⟨"x", "p", "X", 1, true⟩, ⟨"y", "p", "Y", 2, true⟩]
     (by decide) (by decide) (by decide) (by decide) (by decide)⟩

/-- C6: every DELETE naming an existing section, service or package is
answered `{success:true, message}`; the named entity is deactivated; no
sibling is renumbered — every row keeps its id, parent, name and position
(gaps are permitted); rows not named are wholly unchanged; and repeating
the delete is idempotent. -/
theorem claim_C6 (pid eid : String) (db : List Row)
    (hEx : ∃ r ∈ db, r.id = eid ∧ r.parentId = pid) :
    (deleteSectionHandler pid eid db).1 = HandlerResult.response 200 true ∧
    (deleteServiceHandler pid eid db).1 = HandlerResult.response 200 true ∧
    (deletePackageHandler pid eid db).1 = HandlerResult.response 200 true ∧
    (∃ r ∈ deactivate eid pid db, r.id = eid ∧ r.parentId = pid ∧ r.isActive = false) ∧
    (deactivate eid pid db).map (fun r => (r.id, r.parentId, r.name, r.position)) =
      db.map (fun r => (r.id, r.parentId, r.name, r.position)) ∧
    (∀ r ∈ db, ¬(r.id = eid ∧ r.parentId = pid) → r ∈ deactivate eid pid db) ∧
    deactivate eid pid (deactivate eid pid db) = deactivate eid pid db := by
  refine ⟨rfl, rfl, rfl, ?_, ?_, ?_, ?_⟩
  · obtain ⟨r, hr, hid, hp⟩ := hEx
    have hmem : (if r.id = eid ∧ r.parentId = pid then { r with isActive := false } else r) ∈
        deactivate eid pid db := List.mem_map_of_mem _ hr
    rw [if_pos ⟨hid, hp⟩] at hmem
    exact ⟨_, hmem, hid, hp, rfl⟩
  · rw [deactivate, List.map_map]
    refine List.map_congr_left fun r _ => ?_
    by_cases hc : r.id = eid ∧ r.parentId = pid <;> simp [hc]
  · intro r hr hcond
    have hmem : (if r.id = eid ∧ r.parentId = pid then { r with isActive := false } else r) ∈
        deactivate eid pid db := List.mem_map_of_mem _ hr
    rwa [if_neg hcond] at hmem
  · rw [deactivate, deactivate, List.map_map]
    refine List.map_congr_left fun r _ => ?_
    by_cases hc : r.id = eid ∧ r.parentId = pid <;> simp [hc]

/-- Witness for C6 at a concrete input: deleting one of two sections. -/
theorem claim_C6_witness :
    (∃ r ∈ ([⟨"a", "u", "A", 1, true⟩, ⟨"b", "u", "B", 2, true⟩] : List Row),
      r.id = "a" ∧ r.parentId = "u") ∧
    ((deleteSectionHandler "u" "a"
        [⟨"a", "u", "A", 1, true⟩, ⟨"b", "u", "B", 2, true⟩]).1 =
      HandlerResult.response 200 true ∧
    (deleteServiceHandler "u" "a"
        [⟨"a", "u", "A", 1, true⟩, ⟨"b", "u", "B", 2, true⟩]).1 =
      HandlerResult.response 200 true ∧
    (deletePackageHandler "u" "a"
        [⟨"a", "u", "A", 1, true⟩, ⟨"b", "u", "B", 2, true⟩]).1 =
      HandlerResult.response 200 true ∧
    (∃ r ∈ deactivate "a" "u" [⟨"a", "u", "A", 1, true⟩, ⟨"b", "u", "B", 2, true⟩],
      r.id = "a" ∧ r.parentId = "u" ∧ r.isActive = false) ∧
    (deactivate "a" "u" [⟨"a", "u", "A", 1, true⟩, ⟨"b", "u", "B", 2, true⟩]).map
        (fun r => (r.id, r.parentId, r.name, r.position)) =
      ([⟨"a", "u", "A", 1, true⟩, ⟨"b", "u", "B", 2, true⟩] : List Row).map
        (fun r => (r.id, r.parentId, r.name, r.position)) ∧
    (∀ r ∈ ([⟨"a", "u", "A", 1, true⟩, ⟨"b", "u", "B", 2, true⟩] : List Row),
      ¬(r.id = "a" ∧ r.parentId = "u") →
        r ∈ deactivate "a" "u" [⟨"a", "u", "A", 1, true⟩, ⟨"b", "u", "B", 2, true⟩]) ∧
    deactivate "a" "u" (deactivate "a" "u"
        [⟨"a", "u", "A", 1, true⟩, ⟨"b", "u", "B", 2, true⟩]) =
      deactivate "a" "u" [⟨"a", "u", "A", 1, true⟩, ⟨"b", "u", "B", 2, true⟩]) :=
  ⟨by decide,
   claim_C6 "u" "a" [⟨"a", "u", "A", 1, true⟩, ⟨"b", "u", "B", 2, true⟩] (by decide)⟩

/-- C7: a reorder writes positions only for listed entities — the
operation is a per-row map; a row whose id is not listed, or that lives
under another parent, is returned wholly unchanged (position and all
other fields); a listed row in scope receives its target position
`j + 1` determined only by its own index in the list, so listed ids that
match no row do not prevent the others from being renumbered. -/
theorem claim_C7 (pid : String) (entries : List Entry) (db : List Row) :
    updateSectionOrder pid entries db = db.map (finalRow pid entries) ∧
    (∀ r ∈ db, (∀ e ∈ entries, e.id ≠ r.id) → finalRow pid entries r = r) ∧
    (∀ r ∈ db, r.parentId ≠ pid → finalRow pid entries r = r) ∧
    (∀ r ∈ db, ∀ j : Nat, r.parentId = pid → lastIdxOf r.id entries = some j →
      finalRow pid entries r = { r with position := (j : Int) + 1 }) :=
  ⟨updateSectionOrder_eq_map pid entries db,
   fun r _ h => finalRow_of_none pid entries r (lastIdxOf_eq_none r.id entries h),
   fun r _ h => finalRow_of_not_parent pid entries r h,
   fun r _ j hp hL => finalRow_of_some pid entries r j hp hL⟩

/-- Witness for C7 at a concrete input: the listed id `"ghost"` matches no
row, the unlisted row `"keep"` is unchanged, and the listed row `"b"`
still receives its target position 2. -/
theorem claim_C7_witness :
    (∀ e ∈ ([⟨"ghost", 1⟩, ⟨"b", 2⟩] : List Entry), e.id ≠ "keep") ∧
    "keep" ∈ ([⟨"keep", "u", "K", 7, true⟩, ⟨"b", "u", "B", 9, true⟩] : List Row).map Row.id ∧
    finalRow "u" [⟨"ghost", 1⟩, ⟨"b", 2⟩] ⟨"keep", "u", "K", 7, true⟩ =
      ⟨"keep", "u", "K", 7, true⟩ ∧
    finalRow "u" [⟨"ghost", 1⟩, ⟨"b", 2⟩] ⟨"b", "u", "B", 9, true⟩ =
      ⟨"b", "u", "B", 2, true⟩ :=
  ⟨by decide, by decide,
   (claim_C7 "u" [⟨"ghost", 1⟩, ⟨"b", 2⟩]
       [⟨"keep", "u", "K", 7, true⟩, ⟨"b", "u", "B", 9, true⟩]).2.1
     ⟨"keep", "u", "K", 7, true⟩ (by decide) (by decide),
   (claim_C7 "u" [⟨"ghost", 1⟩, ⟨"b", 2⟩]
       [⟨"keep", "u", "K", 7, true⟩, ⟨"b", "u", "B", 9, true⟩]).2.2.2
     ⟨"b", "u", "B", 9, true⟩ (by decide) 1 (by decide) (by decide)⟩

/-- C8: applying the same reorder input twice in succession leaves the
stored rows identical to applying it once, for each of the three
collection kinds. -/
theorem claim_C8 : ∀ (pid : String) (entries : List Entry) (db : List Row),
    updateSectionOrder pid entries (updateSectionOrder pid entries db) =
      updateSectionOrder pid entries db ∧
    updateServiceOrder pid entries (updateServiceOrder pid entries db) =
      updateServiceOrder pid entries db ∧
    updatePackageOrder pid entries (updatePackageOrder pid entries db) =
      updatePackageOrder pid entries db :=
  fun pid entries db =>
    ⟨updateSectionOrder_idem pid entries db, updateSectionOrder_idem pid entries db,
     updateSectionOrder_idem pid entries db⟩

/-- C9: in the menu returned by `getMenuData`, every package carries
exactly the service identifiers linked to it in `package_services`; the
membership query filters by `package_id` only, never by section, so
services living in a different section than the package are included. -/
theorem claim_C9 (userId : String) (db : Db) :
    ∀ sec ∈ getMenuData userId db, ∀ p ∈ sec.packages,
      p.services = (db.packageServices.filter fun ps => ps.1 == p.id).map Prod.snd ∧
      ∀ link ∈ db.packageServices, link.1 = p.id → link.2 ∈ p.services := by
  intro sec hsec p hp
  rw [getMenuData] at hsec
  obtain ⟨s0, hs0, rfl⟩ := List.mem_map.mp hsec
  dsimp only at hp
  obtain ⟨p0, hp0, rfl⟩ := List.mem_map.mp hp
  refine ⟨rfl, ?_⟩
  intro link hlink heq
  refine List.mem_map_of_mem Prod.snd ?_
  refine List.mem_filter.mpr ⟨hlink, ?_⟩
  exact beq_iff_eq.mpr heq

/-- Witness for C9 at the spec's Scenario C: package `p1` in section `s1`
references services `a` and `b` that live in section `s2`; the menu still
lists both ids in the package's membership. -/
theorem claim_C9_witness :
    (∃ sec ∈ getMenuData "u"
        (Db.mk [⟨"s1", "u", "One", 1, true⟩, ⟨"s2", "u", "Two", 2, true⟩]
          [⟨"a", "s2", "A", 1, true⟩, ⟨"b", "s2", "B", 2, true⟩]
          [⟨"p1", "s1", "P", 1, true⟩]
          [("p1", "a"), ("p1", "b")]),
      ∃ p ∈ sec.packages, p.id = "p1" ∧ p.services = ["a", "b"]) ∧
    (∀ sec ∈ getMenuData "u"
        (Db.mk [⟨"s1", "u", "One", 1, true⟩, ⟨"s2", "u", "Two", 2, true⟩]
          [⟨"a", "s2", "A", 1, true⟩, ⟨"b", "s2", "B", 2, true⟩]
          [⟨"p1", "s1", "P", 1, true⟩]
          [("p1", "a"), ("p1", "b")]),
      ∀ p ∈ sec.packages,
        p.services = (([("p1", "a"), ("p1", "b")] :
          List (String × String)).filter fun ps => ps.1 == p.id).map Prod.snd ∧
        ∀ link ∈ ([("p1", "a"), ("p1", "b")] : List (String × String)),
          link.1 = p.id → link.2 ∈ p.services) :=
  ⟨by decide,
   claim_C9 "u"
     (Db.mk [⟨"s1", "u", "One", 1, true⟩, ⟨"s2", "u", "Two", 2, true⟩]
       [⟨"a", "s2", "A", 1, true⟩, ⟨"b", "s2", "B", 2, true⟩]
       [⟨"p1", "s1", "P", 1, true⟩]
       [("p1", "a"), ("p1", "b")])⟩

/-- C10: the services reorder handler has no request-shape validation —
when the `services` field is absent the handler throws while evaluating
`services.length` before its try/catch and no response is sent, and for
every body shape the handler never answers 400; by contrast, the sections
handler answers 400 exactly when its field is not an array. -/
theorem claim_C10 :
    ∀ (userId sectionId : String) (v : ReqVal) (db : List Row),
      (v = ReqVal.missing →
        (servicesOrderHandler userId sectionId v db).1 = HandlerResult.thrown) ∧
      (∀ b : Bool,
        (servicesOrderHandler userId sectionId v db).1 ≠ HandlerResult.response 400 b) ∧
      (∀ entries, v = ReqVal.arr entries →
        (sectionsOrderHandler userId v db).1 = HandlerResult.response 200 true) ∧
      ((∀ entries, v ≠ ReqVal.arr entries) →
        (sectionsOrderHandler userId v db).1 = HandlerResult.response 400 false) := by
  intro userId sectionId v db
  cases v <;> simp [servicesOrderHandler, sectionsOrderHandler]

/-- Witness for C10 at a concrete input: a missing `services` field ends in
a thrown exception, not a 400 response. -/
theorem claim_C10_witness :
    (servicesOrderHandler "u" "s" ReqVal.missing []).1 = HandlerResult.thrown ∧
    (servicesOrderHandler "u" "s" ReqVal.missing []).1 ≠ HandlerResult.response 400 false :=
  ⟨(claim_C10 "u" "s" ReqVal.missing []).1 rfl,
   (claim_C10 "u" "s" ReqVal.missing []).2.1 false⟩

end MenuOrder
